import Mathlib

/-!
Shallow embedding of the awspub publication pipeline (awspub/context.py,
awspub/s3.py, awspub/snapshot.py, awspub/image.py, awspub/common.py) and
proofs about it.

Modelling conventions:
* SHA-256 and base64 are library calls in the source (`hashlib.sha256`,
  `base64.b64encode`); they are kept abstract here as function parameters
  (`sha : String → String` for `.hexdigest()` on an utf-8 encoded string,
  `shaD : List Nat → List Nat` for `.digest()` on bytes, `b64` for the
  base64 encoder).  Facts that depend on them (such as "a hexdigest is 64
  characters long") appear as explicit hypotheses.
* Bytes are `Nat`, byte strings are `List Nat`.
* AWS-side state (S3 bucket contents, EC2 snapshots/import tasks/images per
  region) is explicit state threaded through the embedded operations;
  resource ids handed out by the provider are modelled by a fresh-id counter.
* Python exceptions become `Except Err`.
-/

/-- Err mirrors awspub/exceptions.py (plus the built-in Python errors the
code can raise: `ValueError` in `Snapshot._copy`, `KeyError` on a missing
dict key, and a generic provider error for out-of-model API answers). -/
inductive Err where
  | multipleSnapshotsException
  | multipleImportSnapshotTasksException
  | multipleImagesException
  | bucketDoesNotExistException
  | valueError
  | keyError
  | providerError
deriving DecidableEq, Repr

/-- Tag is one `{"Key": ..., "Value": ...}` dictionary as used throughout the
source for AWS resource tags. -/
structure Tag where
  key : String
  value : String
deriving DecidableEq, Repr

/-- Context models awspub/context.py `Context`: the resolved configuration
pieces the verified claims depend on.  `source_sha256` is the hex digest of
the source file computed once in `Context.__init__`; `extra_tags` is the
item list of the optional top-level `tags` mapping of the configuration. -/
structure Context where
  source_path_name : String
  source_architecture : String
  source_sha256 : String
  extra_tags : List Tag
  bucket_name : String
deriving DecidableEq, Repr

/-- Context.tags embeds the `tags` property of awspub/context.py: a fresh
list holding the three mandatory `awspub:source:*` tags followed by the
configured extra tags, built anew on every property access (the property
has no backing store, so it is a pure function of the context). -/
def Context.tags (ctx : Context) : List Tag :=
  [⟨"awspub:source:filename", ctx.source_path_name⟩,
   ⟨"awspub:source:architecture", ctx.source_architecture⟩,
   ⟨"awspub:source:sha256", ctx.source_sha256⟩]
  ++ ctx.extra_tags

/-- Modelled from the spec: `Context.tags_dict` is read by `Image._tags`
(awspub/image.py line 156) but is absent from src/awspub/context.py, which
only defines the `tags` list property; the context module carrying it is
not part of the source snapshot.  Following the spec's words ("ConfigContext
... exposes per-resource tag sets"; "Resource tags: ordered key/value
pairs; mandatory keys ... plus" the configured ones) it is the common
resource tag set as an ordered key-to-value mapping: the mapping
underlying `Context.tags`. -/
def Context.tags_dict (ctx : Context) : List (String × String) :=
  (Context.tags ctx).map (fun t => (t.key, t.value))

/-- ImageConf carries the per-image configuration options
(awspub/configmodels.py `ConfigImageModel`) referenced by the verified
claims.  `billing_products = []` covers both the empty list and the `None`
default (both are falsy in the Python guards); `tags` is the item list of
the per-image `tags` mapping (`self.conf.get("tags", {})`). -/
structure ImageConf where
  separate_snapshot : Bool
  billing_products : List String
  temporary : Bool
  tags : List (String × String)
deriving DecidableEq, Repr

/-- snapshot_name embeds the `Image.snapshot_name` property of
awspub/image.py: start from the source file sha256 hexdigest, append the
hexdigest of the image name when `separate_snapshot` is set, append the
hexdigest of each billing product in configured order, and finally hash the
concatenation unless it is still the unmodified source digest. -/
def snapshot_name (sha : String → String) (ctx : Context) (image_name : String)
    (conf : ImageConf) : String :=
  let s0 := ctx.source_sha256
  let s1 := if conf.separate_snapshot then s0 ++ sha image_name else s0
  let s2 := s1 ++ String.join (conf.billing_products.map sha)
  if s2 = ctx.source_sha256 then s2 else sha s2

/-- MULTIPART_CHUNK_SIZE from awspub/s3.py. -/
def MULTIPART_CHUNK_SIZE : Nat := 8 * 1024 * 1024

/-- chunksOfFuel is the fuel-indexed worker for `chunksOf`: each step emits
the next `sz`-byte chunk.  For the positive chunk size the source uses, a
fuel of the input length is always enough (every emitted chunk consumes at
least one byte). -/
def chunksOfFuel (sz : Nat) : Nat → List Nat → List (List Nat)
  | _, [] => []
  | 0, l => [l]
  | fuel + 1, l => l.take sz :: chunksOfFuel sz fuel (l.drop sz)

/-- chunksOf models `iter(lambda: f.read(sz), b"")`: split a byte string
into consecutive chunks of `sz` bytes (the final chunk may be shorter); an
empty input yields no chunks. -/
def chunksOf (sz : Nat) (l : List Nat) : List (List Nat) :=
  chunksOfFuel sz l.length l

/-- mpsAccum embeds the accumulating loop of `S3._multipart_sha256sum`:
collect the per-chunk digests and count the chunks. -/
def mpsAccum (shaD : List Nat → List Nat) :
    List (List Nat) → List (List Nat) × Nat → List (List Nat) × Nat
  | [], acc => acc
  | c :: cs, (l, n) => mpsAccum shaD cs (l ++ [shaD c], n + 1)

/-- multipart_sha256sum embeds `S3._multipart_sha256sum` of awspub/s3.py:
the base64 encoding of the sha256 digest of the concatenated per-chunk
sha256 digests, a dash, and the chunk count. -/
def multipart_sha256sum (shaD : List Nat → List Nat) (b64 : List Nat → String)
    (file : List Nat) : String :=
  let acc := mpsAccum shaD (chunksOf MULTIPART_CHUNK_SIZE file) ([], 0)
  b64 (shaD acc.1.flatten) ++ "-" ++ toString acc.2

/-- lookupA models a Python dict lookup on an association list (first
binding of the key, if any). -/
def lookupA {κ α : Type} [DecidableEq κ] : List (κ × α) → κ → Option α
  | [], _ => none
  | p :: ps, k => if p.1 = k then some p.2 else lookupA ps k

/-- setA models a Python dict assignment on an association list: replace the
first binding of the key, or append a new binding. -/
def setA {κ α : Type} [DecidableEq κ] : List (κ × α) → κ → α → List (κ × α)
  | [], k, v => [(k, v)]
  | p :: ps, k, v => if p.1 = k then (k, v) :: ps else p :: setA ps k v

theorem lookupA_setA {κ α : Type} [DecidableEq κ] (l : List (κ × α)) (k k' : κ) (v : α) :
    lookupA (setA l k v) k' = if k' = k then some v else lookupA l k' := by
  induction l with
  | nil =>
    by_cases h : k' = k
    · simp [setA, lookupA, h]
    · have hkk : ¬ k = k' := fun hh => h hh.symm
      simp [setA, lookupA, h, hkk]
  | cons p ps ih =>
    by_cases hp : p.1 = k
    · by_cases h : k' = k
      · simp [setA, lookupA, hp, h]
      · have hkk : ¬ k = k' := fun hh => h hh.symm
        have hpk : ¬ p.1 = k' := by rw [hp]; exact hkk
        simp [setA, lookupA, hp, h, hkk, hpk]
    · by_cases hk' : p.1 = k'
      · have hkk : ¬ k' = k := fun he => hp (he ▸ hk')
        simp [setA, lookupA, hp, hk', hkk]
      · simp [setA, lookupA, hp, hk', ih]

/-- S3State models the account-visible state of the S3 service used by
awspub/s3.py: the buckets (for `list_buckets`), the objects of the target
bucket as key/stored-ChecksumSHA256 pairs (for `head_object` and
`complete_multipart_upload`), the pending multipart uploads of the target
bucket as (upload id, key, parts) with parts as
(part number, ChecksumSHA256) pairs, the tag set attached to finished
objects, a fresh upload-id counter and a counter of `upload_part` calls
(bytes actually transferred). -/
structure S3State where
  bucket_names : List String
  objects : List (String × String)
  object_tags : List (String × List Tag)
  uploads : List (Nat × String × List (Nat × String))
  next_upload_id : Nat
  part_transfers : Nat
deriving DecidableEq, Repr

/-- bucket_exists embeds `S3._bucket_exists`: the configured bucket is among
the account's buckets. -/
def bucket_exists (ctx : Context) (st : S3State) : Bool :=
  st.bucket_names.contains ctx.bucket_name

/-- get_multipart_upload_id embeds `S3._get_multipart_upload_id`: find the
pending multipart uploads for the content key; reuse a single existing one,
create a fresh one when there is none, and fall back to the first one when
there are several. -/
def get_multipart_upload_id (ctx : Context) (st : S3State) : Nat × S3State :=
  let ups := st.uploads.filter (fun u => u.2.1 = ctx.source_sha256)
  match ups with
  | [u] => (u.1, st)
  | [] =>
      (st.next_upload_id,
       { st with
          uploads := st.uploads ++ [(st.next_upload_id, ctx.source_sha256, [])],
          next_upload_id := st.next_upload_id + 1 })
  | u :: _ => (u.1, st)

/-- setUploadPart records a part (number and checksum) on the pending
multipart upload with the given id, as `upload_part` does server-side. -/
def setUploadPart (st : S3State) (uid : Nat) (pn : Nat) (cks : String) : S3State :=
  { st with
     uploads := st.uploads.map
       (fun u => if u.1 = uid then (u.1, u.2.1, setA u.2.2 pn cks) else u) }

/-- uploadPartsLoop embeds the per-chunk loop of `S3._upload_file_multipart`:
for every chunk (part numbers starting at 1), reuse an already uploaded part
whose stored checksum matches, otherwise upload the chunk (ETags are not
modelled; an `upload_part` call bumps `part_transfers`); it returns the
completed-parts list passed to `complete_multipart_upload` and the new
state. -/
def uploadPartsLoop (b64sha : List Nat → String) (uid : Nat)
    (parts_available : List (Nat × String)) :
    List (Nat × List Nat) → List (Nat × String) × S3State →
    List (Nat × String) × S3State
  | [], acc => acc
  | (pn, chunk) :: rest, (parts, st) =>
    let sha256_part := b64sha chunk
    match lookupA parts_available pn with
    | some cks =>
      if cks = sha256_part then
        uploadPartsLoop b64sha uid parts_available rest (setA parts pn cks, st)
      else
        uploadPartsLoop b64sha uid parts_available rest
          (setA parts pn sha256_part,
           setUploadPart { st with part_transfers := st.part_transfers + 1 }
             uid pn sha256_part)
    | none =>
        uploadPartsLoop b64sha uid parts_available rest
          (setA parts pn sha256_part,
           setUploadPart { st with part_transfers := st.part_transfers + 1 }
             uid pn sha256_part)

/-- upload_file_multipart embeds `S3._upload_file_multipart`: get (or start)
a multipart upload, list its already available parts, upload the missing or
mismatched chunks, complete the upload (which materializes the object at the
content key with the aggregate checksum and drops the pending upload) and
tag the final object with the common context tags. -/
def upload_file_multipart (shaD : List Nat → List Nat) (b64 : List Nat → String)
    (ctx : Context) (file : List Nat) (s3_sha256sum : String) (st : S3State) : S3State :=
  let r := get_multipart_upload_id ctx st
  let uid := r.1
  let st1 := r.2
  let parts_available :=
    ((st1.uploads.find? (fun u => u.1 = uid)).map (fun u => u.2.2)).getD []
  let chunks := List.enumFrom 1 (chunksOf MULTIPART_CHUNK_SIZE file)
  let st2 := (uploadPartsLoop (fun c => b64 (shaD c)) uid parts_available chunks ([], st1)).2
  { st2 with
     objects := setA st2.objects ctx.source_sha256 s3_sha256sum,
     uploads := st2.uploads.filter (fun u => !(u.1 = uid)),
     object_tags := setA st2.object_tags ctx.source_sha256 ctx.tags }

/-- upload_file embeds `S3.upload_file` of awspub/s3.py: require the bucket
to exist, compute the local multipart checksum, do nothing when the object
at the content key already stores a matching checksum, otherwise run the
resumable multipart upload (the `except` branch of the source corresponds
to the key being absent). -/
def upload_file (shaD : List Nat → List Nat) (b64 : List Nat → String)
    (ctx : Context) (file : List Nat) (st : S3State) : Except Err S3State :=
  if bucket_exists ctx st = false then .error .bucketDoesNotExistException
  else
    let s3_sha256sum := multipart_sha256sum shaD b64 file
    match lookupA st.objects ctx.source_sha256 with
    | some cks =>
      if cks = s3_sha256sum then .ok st
      else .ok (upload_file_multipart shaD b64 ctx file s3_sha256sum st)
    | none => .ok (upload_file_multipart shaD b64 ctx file s3_sha256sum st)


/-- Snap models one EC2 snapshot as seen by `describe_snapshots` with
`OwnerIds=["self"]` (the world only holds the account's own resources). -/
structure Snap where
  snapshot_id : Nat
  tags : List Tag
  status : String
deriving DecidableEq, Repr

/-- ImportTask models one EC2 import-snapshot task; `snapshot_id` is the
snapshot the task produces (`SnapshotTaskDetail.SnapshotId`). -/
structure ImportTask where
  task_id : Nat
  snapshot_id : Nat
  status : String
  tags : List Tag
deriving DecidableEq, Repr

/-- Img models one EC2 image; `root_snapshot_id` is the snapshot id of the
root block device mapping (`none` when the root device has no Ebs section,
mirroring `Image._get_root_device_snapshot_id` returning `None`); `tags`
are the tags attached via `create_tags`. -/
structure Img where
  image_id : Nat
  name : String
  root_snapshot_id : Option Nat
  is_public : Bool
  tags : List Tag
deriving DecidableEq, Repr

/-- RegionState is the per-region EC2 state. -/
structure RegionState where
  snaps : List Snap
  tasks : List ImportTask
  images : List Img
deriving DecidableEq, Repr

/-- Ev records the provider calls whose occurrence and order the claims talk
about. -/
inductive Ev where
  | importStarted (region : String) (task_id : Nat)
  | copyIssued (region : String) (snapshot_id : Nat)
  | waited (region : String) (snapshot_id : Nat)
  | registered (region : String) (image_id : Nat)
  | deregistered (region : String) (image_id : Nat)
deriving DecidableEq, Repr

/-- World is the full provider state: the per-region EC2 states, a fresh-id
counter for provider-assigned resource ids and the call log. -/
structure World where
  regions : List (String × RegionState)
  next_id : Nat
  log : List Ev
deriving DecidableEq, Repr

def emptyRegion : RegionState := ⟨[], [], []⟩

/-- World.region is the state of one region (a region never touched before
is empty). -/
def World.region (w : World) (r : String) : RegionState :=
  (lookupA w.regions r).getD emptyRegion

/-- World.updRegion applies an update to the state of one region. -/
def World.updRegion (w : World) (r : String) (f : RegionState → RegionState) : World :=
  { w with regions := setA w.regions r (f (w.region r)) }

/-- logEv appends one event to the call log. -/
def logEv (w : World) (e : Ev) : World :=
  { w with log := w.log ++ [e] }

theorem region_updRegion (w : World) (r r' : String) (f : RegionState → RegionState) :
    (w.updRegion r f).region r' = if r' = r then f (w.region r) else w.region r' := by
  simp only [World.region, World.updRegion, lookupA_setA]
  by_cases h : r' = r <;> simp [h]

theorem log_updRegion (w : World) (r : String) (f : RegionState → RegionState) :
    (w.updRegion r f).log = w.log := rfl

theorem region_logEv (w : World) (r : String) (e : Ev) :
    (logEv w e).region r = w.region r := rfl

/-- hasNameTag is the `tag:Name` filter of `describe_snapshots` /
`describe_import_snapshot_tasks`: the resource carries a tag with key
`Name` and the given value. -/
def hasNameTag (tags : List Tag) (name : String) : Bool :=
  tags.any (fun t => t.key = "Name" && t.value = name)

/-- snapsMatching is the resource set `Snapshot._get` asks the provider
for: own snapshots tagged `Name=snapshot_name` in status pending or
completed. -/
def snapsMatching (w : World) (region snapshot_name : String) : List Snap :=
  (w.region region).snaps.filter
    (fun s => hasNameTag s.tags snapshot_name &&
      (s.status = "pending" || s.status = "completed"))

/-- snapshot_get embeds `Snapshot._get` of awspub/snapshot.py: one match
returns its snapshot id, no match returns `None`, several matches raise
`MultipleSnapshotsException`. -/
def snapshot_get (w : World) (region snapshot_name : String) : Except Err (Option Nat) :=
  match snapsMatching w region snapshot_name with
  | [s] => .ok (some s.snapshot_id)
  | [] => .ok none
  | _ => .error .multipleSnapshotsException

/-- importTasksMatching is the task set `Snapshot._get_import_snapshot_task`
considers: tasks tagged `Name=snapshot_name` whose status is not `deleted`
or `completed` (the API tag filter plus the in-code status filter). -/
def importTasksMatching (w : World) (region snapshot_name : String) : List ImportTask :=
  (w.region region).tasks.filter
    (fun t => hasNameTag t.tags snapshot_name &&
      !(t.status = "deleted" || t.status = "completed"))

/-- import_snapshot_task_get embeds `Snapshot._get_import_snapshot_task`:
one in-flight task returns its id, none returns `None`, several raise
`MultipleImportSnapshotTasksException`. -/
def import_snapshot_task_get (w : World) (region snapshot_name : String) :
    Except Err (Option Nat) :=
  match importTasksMatching w region snapshot_name with
  | [t] => .ok (some t.task_id)
  | [] => .ok none
  | _ => .error .multipleImportSnapshotTasksException

/-- finishImportTask models the `snapshot_imported` waiter: the provider
finishes the import task and materializes its snapshot (initially untagged,
in status pending) if it does not exist yet. -/
def finishImportTask (w : World) (region : String) (tid : Nat) : World :=
  match (w.region region).tasks.find? (fun t => t.task_id = tid) with
  | none => w
  | some t =>
    w.updRegion region (fun rs =>
      { rs with
         tasks := rs.tasks.map
           (fun x => if x.task_id = tid then { x with status := "completed" } else x),
         snaps :=
           if rs.snaps.any (fun s => s.snapshot_id = t.snapshot_id) then rs.snaps
           else rs.snaps ++ [⟨t.snapshot_id, [], "pending"⟩] })

/-- addTagsToSnap models `create_tags` on a snapshot: append the given tags
to the snapshot with the given id. -/
def addTagsToSnap (w : World) (region : String) (sid : Nat) (tags : List Tag) : World :=
  w.updRegion region (fun rs =>
    { rs with
       snaps := rs.snaps.map
         (fun s => if s.snapshot_id = sid then { s with tags := s.tags ++ tags } else s) })

/-- setSnapStatus models the `snapshot_completed` waiter reaching its target
state: the snapshot with the given id becomes completed. -/
def setSnapStatus (w : World) (region : String) (sid : Nat) (status : String) : World :=
  w.updRegion region (fun rs =>
    { rs with
       snaps := rs.snaps.map
         (fun s => if s.snapshot_id = sid then { s with status := status } else s) })

/-- snapshot_create embeds `Snapshot.create` of awspub/snapshot.py: return
the existing snapshot id if one is tagged with the name; otherwise extend
the context tags with the `Name` tag, reuse or start an import-snapshot
task (a fresh task gets a fresh task id and snapshot id from the
provider), wait for the import, read the snapshot id from the task, tag the
snapshot before waiting for completion, and return the snapshot id. -/
def snapshot_create (ctx : Context) (region snapshot_name : String) (w : World) :
    Except Err (Nat × World) :=
  match snapshot_get w region snapshot_name with
  | .error e => .error e
  | .ok (some sid) => .ok (sid, w)
  | .ok none =>
    let tags := ctx.tags ++ [⟨"Name", snapshot_name⟩]
    match import_snapshot_task_get w region snapshot_name with
    | .error e => .error e
    | .ok tOpt =>
      let tw : Nat × World :=
        match tOpt with
        | some tid => (tid, w)
        | none =>
          let tid := w.next_id
          let sid := w.next_id + 1
          let w1 := (w.updRegion region
            (fun rs => { rs with tasks := rs.tasks ++ [⟨tid, sid, "active", tags⟩] }))
          (tid, logEv { w1 with next_id := w.next_id + 2 } (.importStarted region tid))
      let tid := tw.1
      let w2 := finishImportTask tw.2 region tid
      match (w2.region region).tasks.find? (fun t => t.task_id = tid) with
      | none => .error .providerError
      | some task =>
        let sid := task.snapshot_id
        let w3 := addTagsToSnap w2 region sid tags
        let w4 := setSnapStatus w3 region sid "completed"
        .ok (sid, w4)

/-- snapshot_copy_one embeds `Snapshot._copy` of awspub/snapshot.py: an
existing snapshot in the destination region short-circuits; otherwise the
source snapshot must exist (else `ValueError`) and a cross-region copy is
issued (fresh snapshot id, tagged at creation, status pending) without
waiting for it. -/
def snapshot_copy_one (ctx : Context) (snapshot_name source_region destination_region : String)
    (w : World) : Except Err (Nat × World) :=
  match snapshot_get w destination_region snapshot_name with
  | .error e => .error e
  | .ok (some sid) => .ok (sid, w)
  | .ok none =>
    match snapshot_get w source_region snapshot_name with
    | .error e => .error e
    | .ok none => .error .valueError
    | .ok (some _) =>
      let tags := ctx.tags ++ [⟨"Name", snapshot_name⟩]
      let sid := w.next_id
      let w1 := w.updRegion destination_region
        (fun rs => { rs with snaps := rs.snaps ++ [⟨sid, tags, "pending"⟩] })
      .ok (sid, logEv { w1 with next_id := w.next_id + 1 } (.copyIssued destination_region sid))

/-- snapshot_copy_phase1 is the first loop of `Snapshot.copy`: issue (or
skip) one copy per destination region, recording the snapshot ids. -/
def snapshot_copy_phase1 (ctx : Context) (snapshot_name source_region : String) :
    List String → World → List (String × Nat) → Except Err (List (String × Nat) × World)
  | [], w, acc => .ok (acc, w)
  | d :: ds, w, acc =>
    match snapshot_copy_one ctx snapshot_name source_region d w with
    | .error e => .error e
    | .ok (sid, w') => snapshot_copy_phase1 ctx snapshot_name source_region ds w' (setA acc d sid)

/-- snapshot_wait_all is the second loop of `Snapshot.copy`: wait (bounded
polling) for every recorded snapshot to complete. -/
def snapshot_wait_all : List (String × Nat) → World → World
  | [], w => w
  | (d, sid) :: rest, w =>
    snapshot_wait_all rest (logEv (setSnapStatus w d sid "completed") (.waited d sid))

/-- snapshot_copy embeds `Snapshot.copy` of awspub/snapshot.py: issue all
copies first, then wait on all recorded snapshots, and return the
region-to-snapshot-id map. -/
def snapshot_copy (ctx : Context) (snapshot_name source_region : String)
    (destination_regions : List String) (w : World) :
    Except Err (List (String × Nat) × World) :=
  match snapshot_copy_phase1 ctx snapshot_name source_region destination_regions w [] with
  | .error e => .error e
  | .ok (ids, w1) => .ok (ids, snapshot_wait_all ids w1)

/-- ImageInfo mirrors the `_ImageInfo` dataclass of awspub/image.py. -/
structure ImageInfo where
  image_id : Nat
  snapshot_id : Option Nat
deriving DecidableEq, Repr

/-- imagesMatching is the resource set `Image._get` asks the provider for:
own images whose name is exactly the configured image name. -/
def imagesMatching (w : World) (region image_name : String) : List Img :=
  (w.region region).images.filter (fun i => i.name = image_name)

/-- image_get embeds `Image._get` of awspub/image.py: one match returns its
image id and root device snapshot id, no match returns `None`, several
matches raise `MultipleImagesException`. -/
def image_get (w : World) (region image_name : String) : Except Err (Option ImageInfo) :=
  match imagesMatching w region image_name with
  | [i] => .ok (some ⟨i.image_id, i.root_snapshot_id⟩)
  | [] => .ok none
  | _ => .error .multipleImagesException

/-- image_tags embeds the `_tags` property of awspub/image.py: the common
tag mapping (the spec-modelled `Context.tags_dict`) updated with the
image-specific tags - image tags override common ones by key with Python
dict-update order (replace in place, append new keys) - emitted as
Key/Value pairs. -/
def image_tags (ctx : Context) (conf : ImageConf) : List Tag :=
  (conf.tags.foldl (fun acc kv => setA acc kv.1 kv.2) ctx.tags_dict).map
    (fun kv => ⟨kv.1, kv.2⟩)

/-- image_create_regions embeds the per-region loop of `Image.create`
(awspub/image.py lines 429-492): for every region, an existing image with
the configured name is used as is (a root device snapshot id mismatch is
only logged as a warning), otherwise `register_image` creates a fresh
private image whose root device points at the region's snapshot id, and
`create_tags` immediately tags the fresh image id with `Image._tags`; the
two consecutive provider calls are modelled as one state update appending
the already-tagged image (the register kwargs that do not land in the
modelled image state - boot mode, volume type and size, device names - are
omitted). -/
def image_create_regions (ctx : Context) (conf : ImageConf) (image_name : String)
    (snapshot_ids : List (String × Nat)) :
    List String → World → List (String × ImageInfo) →
    Except Err (List (String × ImageInfo) × World)
  | [], w, images => .ok (images, w)
  | r :: rs, w, images =>
    match image_get w r image_name with
    | .error e => .error e
    | .ok (some info) =>
      image_create_regions ctx conf image_name snapshot_ids rs w (setA images r info)
    | .ok none =>
      match lookupA snapshot_ids r with
      | none => .error .keyError
      | some sid =>
        let iid := w.next_id
        let w1 := w.updRegion r
          (fun rs0 => { rs0 with
            images := rs0.images ++ [⟨iid, image_name, some sid, false, image_tags ctx conf⟩] })
        let w2 := logEv { w1 with next_id := w.next_id + 1 } (.registered r iid)
        image_create_regions ctx conf image_name snapshot_ids rs w2 (setA images r ⟨iid, some sid⟩)

/-- image_cleanup_go is the per-region loop of `Image.cleanup`: for every
region with an image of the configured name, refuse to deregister (only log
an error) when the live image is public, otherwise deregister it. -/
def image_cleanup_go (image_name : String) :
    List String → World → Except Err World
  | [], w => .ok w
  | r :: rs, w =>
    match image_get w r image_name with
    | .error e => .error e
    | .ok none => image_cleanup_go image_name rs w
    | .ok (some info) =>
      match (w.region r).images.find? (fun i => i.image_id = info.image_id) with
      | none => .error .providerError
      | some img =>
        if img.is_public then image_cleanup_go image_name rs w
        else
          let w1 := w.updRegion r
            (fun rs0 => { rs0 with images := rs0.images.filter (fun i => !(i.image_id = info.image_id)) })
          image_cleanup_go image_name rs (logEv w1 (.deregistered r info.image_id))

/-- image_cleanup embeds `Image.cleanup` of awspub/image.py: an image not
marked temporary is never cleaned up; a temporary one is deregistered
region by region unless the live image is public. -/
def image_cleanup (conf : ImageConf) (image_name : String) (regions : List String)
    (w : World) : Except Err World :=
  if conf.temporary then image_cleanup_go image_name regions w else .ok w

/-- splitFirstColon splits a character list at its first colon, if any. -/
def splitFirstColon : List Char → Option (List Char × List Char)
  | [] => none
  | c :: cs =>
    if c = ':' then some ([], cs)
    else
      match splitFirstColon cs with
      | none => none
      | some (p, q) => some (c :: p, q)

/-- pysplitColon models Python `s.split(":", maxsplit)`: split at most
`maxsplit` times at colons, keeping the rest intact. -/
def pysplitColon : Nat → List Char → List (List Char)
  | 0, s => [s]
  | m + 1, s =>
    match splitFirstColon s with
    | none => [s]
    | some (p, q) => p :: pysplitColon m q

/-- split_partition embeds `_split_partition` of awspub/common.py: an ARN
keeps its full text as the resource and yields its encoded partition; a
value starting with `aws` that contains a colon is split into partition and
resource; anything else gets the default partition `aws`.  `none` models
the `ValueError` Python raises when an `arn:`-prefixed value has too few
colon-separated fields for the tuple unpacking. -/
def split_partition (val : String) : Option (String × String) :=
  let cs := val.data
  if ("arn:".data).isPrefixOf cs then
    match pysplitColon 2 cs with
    | [_, p, _] => some (String.mk p, val)
    | _ => none
  else if cs.contains ':' && ("aws".data).isPrefixOf cs then
    match pysplitColon 1 cs with
    | [p, r] => some (String.mk p, String.mk r)
    | _ => none
  else some ("aws", val)

/-- SharePermission is one `{"UserId": ...}` entry passed to
`modify_image_attribute`. -/
structure SharePermission where
  user_id : String
deriving DecidableEq, Repr

/-- share_list_filtered embeds `Image._share_list_filtered` of
awspub/image.py: keep exactly the share entries whose partition equals the
current partition, as `UserId` permission entries, in configured order. -/
def share_list_filtered (partition_current : String) (share_conf : List String) :
    Option (List SharePermission) :=
  match share_conf with
  | [] => some []
  | v :: vs =>
    match split_partition v with
    | none => none
    | some (p, a) =>
      match share_list_filtered partition_current vs with
      | none => none
      | some rest =>
        some (if p = partition_current then ⟨a⟩ :: rest else rest)

theorem mpsAccum_spec (shaD : List Nat → List Nat) (cs : List (List Nat))
    (l : List (List Nat)) (n : Nat) :
    mpsAccum shaD cs (l, n) = (l ++ cs.map shaD, n + cs.length) := by
  induction cs generalizing l n with
  | nil => simp [mpsAccum]
  | cons c cs ih => simp [mpsAccum, ih]; omega

theorem chunksOfFuel_flatten (sz fuel : Nat) (l : List Nat) :
    (chunksOfFuel sz fuel l).flatten = l := by
  induction fuel generalizing l with
  | zero => cases l <;> simp [chunksOfFuel]
  | succ fuel ih =>
    cases l with
    | nil => simp [chunksOfFuel]
    | cons a as =>
      simp [chunksOfFuel, List.flatten, ih]

theorem chunksOf_flatten (sz : Nat) (l : List Nat) : (chunksOf sz l).flatten = l :=
  chunksOfFuel_flatten sz l.length l

/-- C6: for every file partitioned into fixed-size 8 MiB chunks,
`S3._multipart_sha256sum` returns the base64 encoding of the SHA-256 digest
of the concatenation of the per-chunk SHA-256 digests, followed by a dash
and the chunk count (and the chunks do partition the file; the chunk size
constant is 8 MiB). -/
theorem multipart_sha256sum_spec (shaD : List Nat → List Nat) (b64 : List Nat → String)
    (file : List Nat) :
    multipart_sha256sum shaD b64 file =
      b64 (shaD ((chunksOf MULTIPART_CHUNK_SIZE file).map shaD).flatten) ++ "-" ++
        toString (chunksOf MULTIPART_CHUNK_SIZE file).length
    ∧ (chunksOf MULTIPART_CHUNK_SIZE file).flatten = file
    ∧ MULTIPART_CHUNK_SIZE = 8 * 1024 * 1024 := by
  refine ⟨?_, chunksOf_flatten _ _, rfl⟩
  unfold multipart_sha256sum
  rw [mpsAccum_spec]
  simp

theorem length_foldl_append (l : List String) (s : String) :
    (l.foldl (fun r x => r ++ x) s).length = s.length + (l.map String.length).sum := by
  induction l generalizing s with
  | nil => simp
  | cons x xs ih => simp [List.foldl, ih, String.length_append]; omega

theorem length_join (l : List String) :
    (String.join l).length = (l.map String.length).sum := by
  simp [String.join, length_foldl_append]

/-- C1: the derived snapshot identity equals the source content hash
unchanged when `separate_snapshot` is false and `billing_products` is
empty; otherwise (given that sha256 hexdigests are 64 characters long) it
is the hexdigest of the content hash concatenated with the image-name
hexdigest (when `separate_snapshot` is set) followed by the hexdigest of
each billing code in configured order; and the identity is a function of
exactly these inputs, so identical inputs yield the identical identity. -/
theorem snapshot_name_spec (sha : String → String) (ctx ctx' : Context)
    (image_name : String) (conf conf' : ImageConf) :
    (conf.separate_snapshot = false → conf.billing_products = [] →
      snapshot_name sha ctx image_name conf = ctx.source_sha256)
    ∧ ((∀ s, (sha s).length = 64) →
       (conf.separate_snapshot = true ∨ conf.billing_products ≠ []) →
       snapshot_name sha ctx image_name conf =
         sha (ctx.source_sha256 ++ (if conf.separate_snapshot then sha image_name else "") ++
           String.join (conf.billing_products.map sha)))
    ∧ (ctx.source_sha256 = ctx'.source_sha256 →
       conf.separate_snapshot = conf'.separate_snapshot →
       conf.billing_products = conf'.billing_products →
       snapshot_name sha ctx image_name conf = snapshot_name sha ctx' image_name conf') := by
  refine ⟨?_, ?_, ?_⟩
  · intro hsep hbp
    simp [snapshot_name, hsep, hbp, String.join]
  · intro h64 hmod
    cases hsep : conf.separate_snapshot with
    | true =>
      have hlen : (ctx.source_sha256 ++ sha image_name ++
          String.join (conf.billing_products.map sha)).length ≠ ctx.source_sha256.length := by
        simp only [String.length_append, h64]
        omega
      have hne : ctx.source_sha256 ++ sha image_name ++
          String.join (conf.billing_products.map sha) ≠ ctx.source_sha256 :=
        fun he => hlen (congrArg String.length he)
      simp only [snapshot_name, hsep, if_true, if_neg hne]
    | false =>
      have hbp : conf.billing_products ≠ [] := by
        rcases hmod with h | h
        · rw [hsep] at h; exact absurd h (by simp)
        · exact h
      cases hb : conf.billing_products with
      | nil => exact absurd hb hbp
      | cons b bs =>
        have hlen : (ctx.source_sha256 ++
            String.join ((b :: bs).map sha)).length ≠ ctx.source_sha256.length := by
          simp only [String.length_append, length_join, List.map_cons, List.map_map,
            List.sum_cons, h64, Function.comp]
          omega
        have hne : ctx.source_sha256 ++ String.join ((b :: bs).map sha) ≠ ctx.source_sha256 :=
          fun he => hlen (congrArg String.length he)
        simp only [List.map_cons] at hne
        simp only [snapshot_name, hsep, hb, List.map_cons, Bool.false_eq_true, if_false]
        rw [if_neg hne]
        simp
  · intro h1 h2 h3
    simp only [snapshot_name, h1, h2, h3]

/-- mockHex stands in for a sha256 hexdigest in concrete witnesses: it has
the right output length (64 characters). -/
def mockHex (_ : String) : String := String.mk (List.replicate 64 'h')

def ctxW : Context :=
  ⟨"config1.vmdk", "x86_64",
   "6252475408b9f9ee64452b611d706a078831a99b123db69d144d878a0488a0a8",
   [], "bucket1"⟩

def ctxW2 : Context :=
  ⟨"other.vmdk", "arm64",
   "6252475408b9f9ee64452b611d706a078831a99b123db69d144d878a0488a0a8",
   [⟨"team", "cpc"⟩], "bucket2"⟩

def confPlain : ImageConf := ⟨false, [], false, []⟩

def confSep : ImageConf := ⟨true, ["bp-1", "bp-2"], false, []⟩

theorem snapshot_name_spec_witness :
    snapshot_name mockHex ctxW "img-a" confPlain = ctxW.source_sha256
    ∧ snapshot_name mockHex ctxW "img-a" confSep =
        mockHex (ctxW.source_sha256 ++
          (if confSep.separate_snapshot then mockHex "img-a" else "") ++
          String.join (confSep.billing_products.map mockHex))
    ∧ snapshot_name mockHex ctxW "img-a" confSep = snapshot_name mockHex ctxW2 "img-a" confSep :=
  ⟨(snapshot_name_spec mockHex ctxW ctxW "img-a" confPlain confPlain).1 rfl rfl,
   (snapshot_name_spec mockHex ctxW ctxW "img-a" confSep confSep).2.1
     (fun _ => rfl) (Or.inl rfl),
   (snapshot_name_spec mockHex ctxW ctxW2 "img-a" confSep confSep).2.2 rfl rfl rfl⟩

theorem share_list_filtered_eq_filterMap (cur : String) (conf : List String)
    (out : List SharePermission) (h : share_list_filtered cur conf = some out) :
    out = conf.filterMap (fun v =>
      match split_partition v with
      | some (p, a) => if p = cur then some ⟨a⟩ else none
      | none => none) := by
  induction conf generalizing out with
  | nil =>
    simp [share_list_filtered] at h
    simp [h.symm]
  | cons v vs ih =>
    simp only [share_list_filtered] at h
    cases hv : split_partition v with
    | none => rw [hv] at h; exact absurd h (by simp)
    | some pa =>
      rw [hv] at h
      cases hrest : share_list_filtered cur vs with
      | none => rw [hrest] at h; exact absurd h (by simp)
      | some rest =>
        rw [hrest] at h
        simp only [Option.some_inj] at h
        subst h
        by_cases hp : pa.1 = cur
        · simp [List.filterMap_cons, hv, hp, ih rest hrest]
        · simp [List.filterMap_cons, hv, hp, ih rest hrest]

/-- C7: a share entry is applied as a permission exactly when its encoded
partition equals the active partition (the whole result being the in-order
filter of the configured entries); an entry without any colon gets the
default partition `aws`; and the concrete list
`["aws:111111111111", "aws-cn:222222222222"]` under active partition `aws`
yields exactly the single permission `111111111111`, the cross-partition
entry being skipped without error. -/
theorem share_list_filtered_spec :
    (∀ v : String, v.data.contains ':' = false → split_partition v = some ("aws", v))
    ∧ (∀ (cur : String) (conf : List String) (out : List SharePermission),
        share_list_filtered cur conf = some out →
        out = conf.filterMap (fun v =>
          match split_partition v with
          | some (p, a) => if p = cur then some ⟨a⟩ else none
          | none => none))
    ∧ share_list_filtered "aws" ["aws:111111111111", "aws-cn:222222222222"] =
        some [⟨"111111111111"⟩] := by
  refine ⟨?_, share_list_filtered_eq_filterMap, by decide⟩
  intro v hv
  have hmem : ':' ∉ v.data := by simpa using hv
  have harn : ("arn:".data).isPrefixOf v.data = false := by
    by_contra hb
    rw [Bool.not_eq_false, List.isPrefixOf_iff_prefix] at hb
    exact hmem (hb.subset (by decide))
  simp [split_partition, harn, hv]
  exact fun hm _ => absurd hm hmem

theorem share_list_filtered_spec_witness :
    split_partition "111111111111" = some ("aws", "111111111111")
    ∧ ([⟨"111111111111"⟩] : List SharePermission) =
        (["aws:111111111111", "aws-cn:222222222222"] : List String).filterMap (fun v =>
          match split_partition v with
          | some (p, a) => if p = "aws" then some ⟨a⟩ else none
          | none => none) :=
  ⟨share_list_filtered_spec.1 "111111111111" (by decide),
   share_list_filtered_spec.2.1 "aws" ["aws:111111111111", "aws-cn:222222222222"]
     [⟨"111111111111"⟩] (by decide)⟩

theorem uploadPartsLoop_frame (f : List Nat → String) (uid : Nat)
    (pa : List (Nat × String)) (cs : List (Nat × List Nat))
    (parts : List (Nat × String)) (st : S3State) :
    ((uploadPartsLoop f uid pa cs (parts, st)).2).objects = st.objects ∧
    ((uploadPartsLoop f uid pa cs (parts, st)).2).bucket_names = st.bucket_names := by
  induction cs generalizing parts st with
  | nil => exact ⟨rfl, rfl⟩
  | cons c rest ih =>
    obtain ⟨pn, chunk⟩ := c
    cases h : lookupA pa pn with
    | some cks =>
      by_cases he : cks = f chunk
      · simpa [uploadPartsLoop, h, he] using ih _ _
      · simpa [uploadPartsLoop, h, he, setUploadPart] using ih _ _
    | none =>
      simpa [uploadPartsLoop, h, setUploadPart] using ih _ _

theorem get_multipart_upload_id_frame (ctx : Context) (st : S3State) :
    (get_multipart_upload_id ctx st).2.objects = st.objects ∧
    (get_multipart_upload_id ctx st).2.bucket_names = st.bucket_names := by
  unfold get_multipart_upload_id
  cases h : st.uploads.filter (fun u => u.2.1 = ctx.source_sha256) with
  | nil => simp [h]
  | cons u us =>
    cases us with
    | nil => simp [h]
    | cons v vs => simp [h]

theorem upload_file_multipart_spec (shaD : List Nat → List Nat) (b64 : List Nat → String)
    (ctx : Context) (file : List Nat) (s : String) (st : S3State) :
    lookupA (upload_file_multipart shaD b64 ctx file s st).objects ctx.source_sha256 = some s
    ∧ (upload_file_multipart shaD b64 ctx file s st).bucket_names = st.bucket_names := by
  unfold upload_file_multipart
  constructor
  · simp [lookupA_setA]
  · show (uploadPartsLoop _ _ _ _ ([], (get_multipart_upload_id ctx st).2)).2.bucket_names
      = st.bucket_names
    rw [(uploadPartsLoop_frame _ _ _ _ _ _).2, (get_multipart_upload_id_frame _ _).2]

/-- C2: when the object at the content key already exists with a stored
checksum equal to the locally computed multipart checksum of the file,
`S3.upload_file` returns without changing the provider state at all (no
multipart upload is created, no part is transferred); consequently running
`upload_file` twice on the same file leaves the second run a no-op (zero
additional part transfers). -/
theorem upload_file_spec (shaD : List Nat → List Nat) (b64 : List Nat → String)
    (ctx : Context) (file : List Nat) (st : S3State) :
    (bucket_exists ctx st = true →
     lookupA st.objects ctx.source_sha256 = some (multipart_sha256sum shaD b64 file) →
     upload_file shaD b64 ctx file st = .ok st)
    ∧ (bucket_exists ctx st = true →
       ∃ st1, upload_file shaD b64 ctx file st = .ok st1 ∧
         upload_file shaD b64 ctx file st1 = .ok st1) := by
  have hsecond : ∀ st',
      st'.bucket_names = st.bucket_names →
      bucket_exists ctx st = true →
      lookupA st'.objects ctx.source_sha256 = some (multipart_sha256sum shaD b64 file) →
      upload_file shaD b64 ctx file st' = .ok st' := by
    intro st' hbn hb hobj
    have hb' : bucket_exists ctx st' = true := by
      unfold bucket_exists at hb ⊢
      rw [hbn]
      exact hb
    simp [upload_file, hb', hobj]
  constructor
  · intro hb hobj
    simp [upload_file, hb, hobj]
  · intro hb
    cases hobj : lookupA st.objects ctx.source_sha256 with
    | none =>
      refine ⟨upload_file_multipart shaD b64 ctx file (multipart_sha256sum shaD b64 file) st,
        ?_, ?_⟩
      · simp [upload_file, hb, hobj]
      · exact hsecond _ (upload_file_multipart_spec shaD b64 ctx file _ st).2 hb
          (upload_file_multipart_spec shaD b64 ctx file _ st).1
    | some cks =>
      by_cases he : cks = multipart_sha256sum shaD b64 file
      · refine ⟨st, ?_, ?_⟩
        · simp [upload_file, hb, hobj, he]
        · subst he
          exact hsecond st rfl hb hobj
      · refine ⟨upload_file_multipart shaD b64 ctx file (multipart_sha256sum shaD b64 file) st,
          ?_, ?_⟩
        · simp [upload_file, hb, hobj, he]
        · exact hsecond _ (upload_file_multipart_spec shaD b64 ctx file _ st).2 hb
            (upload_file_multipart_spec shaD b64 ctx file _ st).1

/-- shaDW stands in for a sha256 digest over bytes in concrete witnesses. -/
def shaDW (l : List Nat) : List Nat := [l.length % 256]

/-- b64W stands in for the base64 encoder in concrete witnesses. -/
def b64W (l : List Nat) : String := toString l

def stWfull : S3State :=
  ⟨["bucket1"],
   [("6252475408b9f9ee64452b611d706a078831a99b123db69d144d878a0488a0a8",
     multipart_sha256sum shaDW b64W [1, 2, 3])],
   [], [], 0, 0⟩

def stWempty : S3State := ⟨["bucket1"], [], [], [], 0, 0⟩

theorem upload_file_spec_witness :
    upload_file shaDW b64W ctxW [1, 2, 3] stWfull = .ok stWfull
    ∧ ∃ st1, upload_file shaDW b64W ctxW [1, 2, 3] stWempty = .ok st1 ∧
        upload_file shaDW b64W ctxW [1, 2, 3] st1 = .ok st1 :=
  ⟨(upload_file_spec shaDW b64W ctxW [1, 2, 3] stWfull).1 (by decide) (by decide),
   (upload_file_spec shaDW b64W ctxW [1, 2, 3] stWempty).2 (by decide)⟩

/-- C3: when `Snapshot.create` finds exactly one snapshot in status pending
or completed tagged `Name=identity`, it returns that snapshot's id with the
provider state untouched (in particular no import task is started); when
the lookup finds more than one matching snapshot it raises
`MultipleSnapshotsException` instead of returning an id. -/
theorem snapshot_create_spec (ctx : Context) (region snap_name : String) (w : World) :
    (∀ s : Snap, snapsMatching w region snap_name = [s] →
      snapshot_create ctx region snap_name w = .ok (s.snapshot_id, w))
    ∧ (2 ≤ (snapsMatching w region snap_name).length →
       snapshot_create ctx region snap_name w = .error .multipleSnapshotsException) := by
  constructor
  · intro s hs
    simp [snapshot_create, snapshot_get, hs]
  · intro hlen
    cases hm : snapsMatching w region snap_name with
    | nil => rw [hm] at hlen; simp at hlen
    | cons a t =>
      cases t with
      | nil => rw [hm] at hlen; simp at hlen
      | cons b t' => simp [snapshot_create, snapshot_get, hm]

def snapW1 : Snap := ⟨7, [⟨"Name", "snap-identity"⟩], "completed"⟩

def worldW1 : World := ⟨[("eu-central-1", ⟨[snapW1], [], []⟩)], 10, []⟩

def worldW2 : World :=
  ⟨[("eu-central-1", ⟨[snapW1, ⟨8, [⟨"Name", "snap-identity"⟩], "pending"⟩], [], []⟩)], 10, []⟩

theorem snapshot_create_spec_witness :
    snapshot_create ctxW "eu-central-1" "snap-identity" worldW1 = .ok (7, worldW1)
    ∧ snapshot_create ctxW "eu-central-1" "snap-identity" worldW2 =
        .error .multipleSnapshotsException :=
  ⟨(snapshot_create_spec ctxW "eu-central-1" "snap-identity" worldW1).1 snapW1 (by decide),
   (snapshot_create_spec ctxW "eu-central-1" "snap-identity" worldW2).2 (by decide)⟩

theorem log_logEv (w : World) (e : Ev) : (logEv w e).log = w.log ++ [e] := rfl

theorem region_set_next_id (w : World) (n : Nat) (r : String) :
    ({ w with next_id := n } : World).region r = w.region r := rfl

theorem imagesMatching_of_region_eq (w w' : World) (r img_name : String)
    (h : w'.region r = w.region r) :
    imagesMatching w' r img_name = imagesMatching w r img_name := by
  simp [imagesMatching, h]

theorem image_get_of_region_eq (w w' : World) (r img_name : String)
    (h : w'.region r = w.region r) :
    image_get w' r img_name = image_get w r img_name := by
  simp [image_get, imagesMatching_of_region_eq w w' r img_name h]

theorem image_get_cases (w : World) (r img_name : String)
    (h : (imagesMatching w r img_name).length ≤ 1) :
    (imagesMatching w r img_name = [] ∧ image_get w r img_name = .ok none)
    ∨ (∃ i, imagesMatching w r img_name = [i] ∧
        image_get w r img_name = .ok (some ⟨i.image_id, i.root_snapshot_id⟩)) := by
  cases hm : imagesMatching w r img_name with
  | nil => exact Or.inl ⟨rfl, by simp [image_get, hm]⟩
  | cons a t =>
    cases t with
    | nil => exact Or.inr ⟨a, rfl, by simp [image_get, hm]⟩
    | cons b t' => rw [hm] at h; simp at h

theorem image_create_regions_frame (ctx : Context) (conf : ImageConf)
    (img_name : String) (sids : List (String × Nat))
    (ds : List String) (w : World) (acc res : List (String × ImageInfo)) (w' : World)
    (h : image_create_regions ctx conf img_name sids ds w acc = .ok (res, w'))
    (r : String) (hr : r ∉ ds) :
    w'.region r = w.region r := by
  induction ds generalizing w acc with
  | nil =>
    simp [image_create_regions] at h
    rw [h.2]
  | cons d ds ih =>
    have hrds : r ∉ ds := fun hm => hr (List.mem_cons_of_mem d hm)
    have hrd : r ≠ d := fun he => hr (he ▸ List.mem_cons_self d ds)
    rw [image_create_regions] at h
    cases hget : image_get w d img_name with
    | error e => rw [hget] at h; exact absurd h (by simp)
    | ok o =>
      cases o with
      | some info =>
        rw [hget] at h
        exact ih w (setA acc d info) h hrds
      | none =>
        rw [hget] at h
        cases hsid : lookupA sids d with
        | none => rw [hsid] at h; exact absurd h (by simp)
        | some sid =>
          rw [hsid] at h
          have hstep := ih _ _ h hrds
          rw [hstep, region_logEv, region_set_next_id, region_updRegion]
          simp [hrd]

theorem image_create_regions_idem (ctx : Context) (conf : ImageConf)
    (img_name : String) (sids : List (String × Nat))
    (ds : List String) (w : World) (acc : List (String × ImageInfo))
    (hnd : ds.Nodup)
    (hwf : ∀ r ∈ ds, (imagesMatching w r img_name).length ≤ 1)
    (hsid : ∀ r ∈ ds, (lookupA sids r).isSome) :
    ∃ res w1, image_create_regions ctx conf img_name sids ds w acc = .ok (res, w1) ∧
      image_create_regions ctx conf img_name sids ds w1 acc = .ok (res, w1) := by
  induction ds generalizing w acc with
  | nil => exact ⟨acc, w, rfl, rfl⟩
  | cons d ds ih =>
    have hndtail : ds.Nodup := (List.nodup_cons.mp hnd).2
    have hdnotin : d ∉ ds := (List.nodup_cons.mp hnd).1
    rcases image_get_cases w d img_name (hwf d (List.mem_cons_self d ds)) with
      ⟨hm, hget⟩ | ⟨i, hm, hget⟩
    · -- no image with the name yet: register one
      obtain ⟨sid, hsidd⟩ := Option.isSome_iff_exists.mp
        (hsid d (List.mem_cons_self d ds))
      set img : Img := ⟨w.next_id, img_name, some sid, false, image_tags ctx conf⟩ with himg
      set w2 : World := logEv
        { w.updRegion d (fun rs0 => { rs0 with images := rs0.images ++ [img] }) with
          next_id := w.next_id + 1 } (.registered d w.next_id) with hw2
      have hreg2 : ∀ r ∈ ds, w2.region r = w.region r := by
        intro r hr
        have hrd : r ≠ d := fun he => hdnotin (he ▸ hr)
        rw [hw2, region_logEv, region_set_next_id, region_updRegion]
        simp [hrd]
      have hregd : w2.region d =
          { w.region d with images := (w.region d).images ++ [img] } := by
        rw [hw2, region_logEv, region_set_next_id, region_updRegion]
        simp
      obtain ⟨res, w1, h1, h2⟩ := ih w2 (setA acc d ⟨w.next_id, some sid⟩)
        hndtail
        (fun r hr => by
          rw [imagesMatching_of_region_eq w w2 r img_name (hreg2 r hr)]
          exact hwf r (List.mem_cons_of_mem d hr))
        (fun r hr => hsid r (List.mem_cons_of_mem d hr))
      refine ⟨res, w1, ?_, ?_⟩
      · rw [image_create_regions, hget, hsidd]
        exact h1
      · have hw1d : w1.region d = w2.region d :=
          image_create_regions_frame ctx conf img_name sids ds w2 _ res w1 h1 d hdnotin
        have hmatch1 : imagesMatching w1 d img_name = [img] := by
          have : imagesMatching w1 d img_name = imagesMatching w2 d img_name :=
            imagesMatching_of_region_eq w2 w1 d img_name hw1d
          rw [this]
          simp only [imagesMatching, hregd, List.filter_append]
          have hm' : (w.region d).images.filter (fun i => i.name = img_name) = [] := hm
          rw [hm']
          simp [himg]
        have hget1 : image_get w1 d img_name = .ok (some ⟨w.next_id, some sid⟩) := by
          simp [image_get, hmatch1, himg]
        rw [image_create_regions, hget1]
        exact h2
    · -- an image with the name exists: reuse it, never register
      set info : ImageInfo := ⟨i.image_id, i.root_snapshot_id⟩ with hinfo
      obtain ⟨res, w1, h1, h2⟩ := ih w (setA acc d info)
        hndtail
        (fun r hr => hwf r (List.mem_cons_of_mem d hr))
        (fun r hr => hsid r (List.mem_cons_of_mem d hr))
      refine ⟨res, w1, ?_, ?_⟩
      · rw [image_create_regions, hget]
        exact h1
      · have hw1d : w1.region d = w.region d :=
          image_create_regions_frame ctx conf img_name sids ds w _ res w1 h1 d hdnotin
        have hget1 : image_get w1 d img_name = .ok (some info) := by
          rw [image_get_of_region_eq w w1 d img_name hw1d]
          exact hget
        rw [image_create_regions, hget1]
        exact h2

/-- C4: in every region where an image with the configured name already
exists, `Image.create` issues no `register_image` call and returns the
existing image id (the provider state is untouched) even when the existing
image's root device snapshot id differs from the expected one; hence
running the create loop twice with the same name and snapshot ids performs
no call and no state change in the second run and returns the same image
ids both times. -/
theorem image_create_regions_spec (ctx : Context) (conf : ImageConf)
    (img_name : String) (sids : List (String × Nat))
    (w : World) (r : String) (info : ImageInfo) (regions : List String) :
    (image_get w r img_name = .ok (some info) →
      image_create_regions ctx conf img_name sids [r] w [] = .ok ([(r, info)], w))
    ∧ (regions.Nodup →
       (∀ d ∈ regions, (imagesMatching w d img_name).length ≤ 1) →
       (∀ d ∈ regions, (lookupA sids d).isSome) →
       ∃ res w1, image_create_regions ctx conf img_name sids regions w [] = .ok (res, w1) ∧
         image_create_regions ctx conf img_name sids regions w1 [] = .ok (res, w1)) := by
  constructor
  · intro hget
    rw [image_create_regions, hget]
    rfl
  · intro hnd hwf hsid
    exact image_create_regions_idem ctx conf img_name sids regions w [] hnd hwf hsid

def worldW3 : World :=
  ⟨[("us-east-1", ⟨[], [], [⟨5, "img-a", some 99, false, []⟩]⟩)], 10, []⟩

theorem image_create_regions_spec_witness :
    image_create_regions ctxW confPlain "img-a" [("us-east-1", 42), ("eu-west-1", 43)]
      ["us-east-1"] worldW3 [] = .ok ([("us-east-1", ⟨5, some 99⟩)], worldW3)
    ∧ ∃ res w1,
        image_create_regions ctxW confPlain "img-a" [("us-east-1", 42), ("eu-west-1", 43)]
          ["us-east-1", "eu-west-1"] worldW3 [] = .ok (res, w1) ∧
        image_create_regions ctxW confPlain "img-a" [("us-east-1", 42), ("eu-west-1", 43)]
          ["us-east-1", "eu-west-1"] w1 [] = .ok (res, w1) :=
  ⟨(image_create_regions_spec ctxW confPlain "img-a" [("us-east-1", 42), ("eu-west-1", 43)]
      worldW3 "us-east-1" ⟨5, some 99⟩ []).1 rfl,
   (image_create_regions_spec ctxW confPlain "img-a" [("us-east-1", 42), ("eu-west-1", 43)]
      worldW3 "us-east-1" ⟨5, some 99⟩ ["us-east-1", "eu-west-1"]).2 (by decide)
     (by decide) (by decide)⟩

theorem find_img_by_id (l : List Img) (a : Img) (hnd : (l.map Img.image_id).Nodup)
    (ha : a ∈ l) : l.find? (fun i => i.image_id = a.image_id) = some a := by
  induction l with
  | nil => cases ha
  | cons b t ih =>
    rcases List.mem_cons.mp ha with hab | hat
    · subst hab; simp [List.find?]
    · have hbne : ¬ b.image_id = a.image_id := by
        intro he
        have hmem : a.image_id ∈ t.map Img.image_id := List.mem_map_of_mem _ hat
        exact (List.nodup_cons.mp hnd).1 (he ▸ hmem)
      rw [List.find?_cons_of_neg _ (by simp [hbne])]
      exact ih (List.nodup_cons.mp hnd).2 hat

theorem image_cleanup_go_spec (img_name : String) (rs : List String) (w : World)
    (hnd : rs.Nodup)
    (hwf : ∀ r ∈ rs, (imagesMatching w r img_name).length ≤ 1 ∧
      ((w.region r).images.map Img.image_id).Nodup) :
    ∃ w' evs, image_cleanup_go img_name rs w = .ok w' ∧ w'.log = w.log ++ evs
      ∧ (∀ e ∈ evs, ∃ r, r ∈ rs ∧ ∃ img : Img, imagesMatching w r img_name = [img] ∧
          img.is_public = false ∧ e = .deregistered r img.image_id)
      ∧ (∀ r ∈ rs, ∀ img : Img, imagesMatching w r img_name = [img] →
          img.is_public = false → Ev.deregistered r img.image_id ∈ evs)
      ∧ (∀ r, r ∉ rs → w'.region r = w.region r) := by
  induction rs generalizing w with
  | nil =>
    exact ⟨w, [], rfl, by simp, by simp, by simp, fun r _ => rfl⟩
  | cons r rs ih =>
    have hndtail : rs.Nodup := (List.nodup_cons.mp hnd).2
    have hrnotin : r ∉ rs := (List.nodup_cons.mp hnd).1
    rcases image_get_cases w r img_name (hwf r (List.mem_cons_self r rs)).1 with
      ⟨hm, hget⟩ | ⟨i, hm, hget⟩
    · -- no image of that name in this region: nothing to do here
      obtain ⟨w', evs, hgo, hlog, hchars, hcover, hframe⟩ := ih w hndtail
        (fun r0 hr0 => hwf r0 (List.mem_cons_of_mem r hr0))
      refine ⟨w', evs, ?_, hlog, ?_, ?_, ?_⟩
      · rw [image_cleanup_go, hget]; exact hgo
      · intro e he
        obtain ⟨r0, hr0, img, h1, h2, h3⟩ := hchars e he
        exact ⟨r0, List.mem_cons_of_mem r hr0, img, h1, h2, h3⟩
      · intro r0 hr0 img h1 h2
        rcases List.mem_cons.mp hr0 with hrr | hrt
        · subst hrr; rw [hm] at h1; exact absurd h1 (by simp)
        · exact hcover r0 hrt img h1 h2
      · intro r0 hr0
        exact hframe r0 (fun hx => hr0 (List.mem_cons_of_mem r hx))
    · have himem : i ∈ (w.region r).images := List.mem_of_mem_filter (hm ▸ List.mem_singleton_self i)
      have hfind : (w.region r).images.find? (fun x => x.image_id = i.image_id) = some i :=
        find_img_by_id _ i (hwf r (List.mem_cons_self r rs)).2 himem
      by_cases hpub : i.is_public = true
      · -- the live image is public: refuse to deregister, only log an error
        obtain ⟨w', evs, hgo, hlog, hchars, hcover, hframe⟩ := ih w hndtail
          (fun r0 hr0 => hwf r0 (List.mem_cons_of_mem r hr0))
        refine ⟨w', evs, ?_, hlog, ?_, ?_, ?_⟩
        · rw [image_cleanup_go, hget]
          dsimp only
          rw [hfind]
          simp only [hpub, if_true]
          exact hgo
        · intro e he
          obtain ⟨r0, hr0, img, h1, h2, h3⟩ := hchars e he
          exact ⟨r0, List.mem_cons_of_mem r hr0, img, h1, h2, h3⟩
        · intro r0 hr0 img h1 h2
          rcases List.mem_cons.mp hr0 with hrr | hrt
          · subst hrr
            rw [hm] at h1
            have : img = i := by simpa using h1.symm
            rw [this] at h2
            rw [h2] at hpub
            exact absurd hpub (by simp)
          · exact hcover r0 hrt img h1 h2
        · intro r0 hr0
          exact hframe r0 (fun hx => hr0 (List.mem_cons_of_mem r hx))
      · -- deregister the temporary image
        have hpub' : i.is_public = false := by
          cases hip : i.is_public
          · rfl
          · exact absurd hip hpub
        set wlog : World := logEv (w.updRegion r (fun rs0 =>
          { rs0 with images := rs0.images.filter (fun x => !(x.image_id = i.image_id)) }))
          (.deregistered r i.image_id) with hwlog
        have hregother : ∀ r0 ∈ rs, wlog.region r0 = w.region r0 := by
          intro r0 hr0
          have hr0r : r0 ≠ r := fun he => hrnotin (he ▸ hr0)
          rw [hwlog, region_logEv, region_updRegion]
          simp [hr0r]
        obtain ⟨w', evs, hgo, hlog, hchars, hcover, hframe⟩ := ih wlog hndtail
          (fun r0 hr0 => by
            rw [imagesMatching_of_region_eq w wlog r0 img_name (hregother r0 hr0),
              hregother r0 hr0]
            exact hwf r0 (List.mem_cons_of_mem r hr0))
        refine ⟨w', Ev.deregistered r i.image_id :: evs, ?_, ?_, ?_, ?_, ?_⟩
        · rw [image_cleanup_go, hget]
          dsimp only
          rw [hfind]
          simp only [hpub', Bool.false_eq_true, if_false]
          exact hgo
        · rw [hlog, hwlog, log_logEv, log_updRegion]
          simp
        · intro e he
          rcases List.mem_cons.mp he with hee | het
          · exact ⟨r, List.mem_cons_self r rs, i, hm, hpub', hee⟩
          · obtain ⟨r0, hr0, img, h1, h2, h3⟩ := hchars e het
            refine ⟨r0, List.mem_cons_of_mem r hr0, img, ?_, h2, h3⟩
            rw [← imagesMatching_of_region_eq w wlog r0 img_name (hregother r0 hr0)]
            exact h1
        · intro r0 hr0 img h1 h2
          rcases List.mem_cons.mp hr0 with hrr | hrt
          · subst hrr
            rw [hm] at h1
            have : img = i := by simpa using h1.symm
            rw [this]
            exact List.mem_cons_self _ _
          · refine List.mem_cons_of_mem _ (hcover r0 hrt img ?_ h2)
            rw [imagesMatching_of_region_eq w wlog r0 img_name (hregother r0 hrt)]
            exact h1
        · intro r0 hr0
          have hr0r : r0 ≠ r := fun he => hr0 (he ▸ List.mem_cons_self r rs)
          rw [hframe r0 (fun hx => hr0 (List.mem_cons_of_mem r hx)), hwlog,
            region_logEv, region_updRegion]
          simp [hr0r]

/-- C8: `Image.cleanup` deregisters an image in a region exactly when the
image is flagged temporary and the live image of that name in the region is
not public: with `temporary` unset it returns with the provider state (and
so the call log) untouched, and for a temporary image the deregister events
added to the log are exactly those of regions holding a non-public image of
the configured name (a public one is only logged as an error and kept). -/
theorem image_cleanup_spec (conf : ImageConf) (img_name : String)
    (regions : List String) (w : World) :
    (conf.temporary = false → image_cleanup conf img_name regions w = .ok w)
    ∧ (conf.temporary = true → regions.Nodup →
       (∀ r ∈ regions, (imagesMatching w r img_name).length ≤ 1 ∧
          ((w.region r).images.map Img.image_id).Nodup) →
       ∃ w', image_cleanup conf img_name regions w = .ok w' ∧
         ∀ r ∈ regions, ∀ ii : Nat,
           (Ev.deregistered r ii ∈ w'.log ↔
             Ev.deregistered r ii ∈ w.log ∨
             ∃ img : Img, imagesMatching w r img_name = [img] ∧
               img.is_public = false ∧ ii = img.image_id)) := by
  constructor
  · intro htemp
    simp [image_cleanup, htemp]
  · intro htemp hnd hwf
    obtain ⟨w', evs, hgo, hlog, hchars, hcover, _⟩ :=
      image_cleanup_go_spec img_name regions w hnd hwf
    refine ⟨w', by simp [image_cleanup, htemp, hgo], ?_⟩
    intro r hr ii
    constructor
    · intro hmem
      rw [hlog] at hmem
      rcases List.mem_append.mp hmem with hold | hnew
      · exact Or.inl hold
      · obtain ⟨r0, hr0, img, h1, h2, h3⟩ := hchars _ hnew
        have hr0r : r0 = r ∧ ii = img.image_id := by
          have := h3
          injection this.symm with e1 e2
          exact ⟨e1, e2.symm⟩
        right
        exact ⟨img, hr0r.1 ▸ h1, h2, hr0r.2⟩
    · intro hsrc
      rw [hlog]
      rcases hsrc with hold | ⟨img, h1, h2, h3⟩
      · exact List.mem_append.mpr (Or.inl hold)
      · refine List.mem_append.mpr (Or.inr ?_)
        rw [h3]
        exact hcover r hr img h1 h2

def confTemp : ImageConf := ⟨false, [], true, []⟩

def worldW4 : World :=
  ⟨[("us-east-1", ⟨[], [], [⟨5, "img-a", some 99, false, []⟩]⟩),
    ("eu-west-1", ⟨[], [], [⟨6, "img-a", some 98, true, []⟩]⟩)], 10, []⟩

theorem image_cleanup_spec_witness :
    image_cleanup confPlain "img-a" ["us-east-1", "eu-west-1"] worldW4 = .ok worldW4
    ∧ ∃ w', image_cleanup confTemp "img-a" ["us-east-1", "eu-west-1"] worldW4 = .ok w' ∧
        ∀ r ∈ ["us-east-1", "eu-west-1"], ∀ ii : Nat,
          (Ev.deregistered r ii ∈ w'.log ↔
            Ev.deregistered r ii ∈ worldW4.log ∨
            ∃ img : Img, imagesMatching worldW4 r "img-a" = [img] ∧
              img.is_public = false ∧ ii = img.image_id) :=
  ⟨(image_cleanup_spec confPlain "img-a" ["us-east-1", "eu-west-1"] worldW4).1 rfl,
   (image_cleanup_spec confTemp "img-a" ["us-east-1", "eu-west-1"] worldW4).2 rfl
     (by decide) (by decide)⟩

theorem snapsMatching_of_region_eq (w w' : World) (r snap_name : String)
    (h : w'.region r = w.region r) :
    snapsMatching w' r snap_name = snapsMatching w r snap_name := by
  simp [snapsMatching, h]

theorem snapshot_get_cases (w : World) (r snap_name : String)
    (h : (snapsMatching w r snap_name).length ≤ 1) :
    (snapsMatching w r snap_name = [] ∧ snapshot_get w r snap_name = .ok none)
    ∨ (∃ s : Snap, snapsMatching w r snap_name = [s] ∧
        snapshot_get w r snap_name = .ok (some s.snapshot_id)) := by
  cases hm : snapsMatching w r snap_name with
  | nil => exact Or.inl ⟨rfl, by simp [snapshot_get, hm]⟩
  | cons a t =>
    cases t with
    | nil => exact Or.inr ⟨a, rfl, by simp [snapshot_get, hm]⟩
    | cons b t' => rw [hm] at h; simp at h

theorem snapshot_wait_all_spec (ids : List (String × Nat)) (w : World) :
    ∃ evs, (snapshot_wait_all ids w).log = w.log ++ evs ∧
      (∀ e ∈ evs, ∃ d i, (d, i) ∈ ids ∧ e = Ev.waited d i) := by
  induction ids generalizing w with
  | nil => exact ⟨[], by simp [snapshot_wait_all], by simp⟩
  | cons p rest ih =>
    obtain ⟨d, sid⟩ := p
    obtain ⟨evs1, hlog1, hchars1⟩ :=
      ih (logEv (setSnapStatus w d sid "completed") (.waited d sid))
    refine ⟨Ev.waited d sid :: evs1, ?_, ?_⟩
    · rw [snapshot_wait_all, hlog1, log_logEv]
      show (World.updRegion w d _).log ++ _ ++ _ = _
      rw [log_updRegion]
      simp
    · intro e he
      rcases List.mem_cons.mp he with hee | het
      · exact ⟨d, sid, List.mem_cons_self _ _, hee⟩
      · obtain ⟨d0, i0, hmem, he0⟩ := hchars1 e het
        exact ⟨d0, i0, List.mem_cons_of_mem _ hmem, he0⟩

theorem snapshot_copy_phase1_spec (ctx : Context) (snap_name src : String)
    (ds : List String) (w : World) (acc : List (String × Nat))
    (hnd : ds.Nodup)
    (hsrc : ∃ s : Snap, snapsMatching w src snap_name = [s])
    (hwf : ∀ d ∈ ds, (snapsMatching w d snap_name).length ≤ 1) :
    ∃ ids w' evs,
      snapshot_copy_phase1 ctx snap_name src ds w acc = .ok (ids, w')
      ∧ w'.log = w.log ++ evs
      ∧ (∀ e ∈ evs, ∃ d i, d ∈ ds ∧ e = Ev.copyIssued d i)
      ∧ (∀ d ∈ ds, ∀ s0 : Snap, snapsMatching w d snap_name = [s0] →
          lookupA ids d = some s0.snapshot_id ∧ ∀ i, Ev.copyIssued d i ∉ evs)
      ∧ (∀ d ∈ ds, snapsMatching w d snap_name = [] →
          ∃ i, lookupA ids d = some i ∧ Ev.copyIssued d i ∈ evs)
      ∧ (∀ k, k ∉ ds → lookupA ids k = lookupA acc k)
      ∧ (∀ k, (lookupA ids k).isSome = true ↔ ((lookupA acc k).isSome = true ∨ k ∈ ds))
      ∧ (∀ r, r ∉ ds → w'.region r = w.region r) := by
  induction ds generalizing w acc with
  | nil =>
    refine ⟨acc, w, [], rfl, by simp, by simp, by simp, by simp,
      fun k _ => rfl, fun k => by simp, fun r _ => rfl⟩
  | cons d ds ih =>
    have hndtail : ds.Nodup := (List.nodup_cons.mp hnd).2
    have hdnotin : d ∉ ds := (List.nodup_cons.mp hnd).1
    obtain ⟨s, hs⟩ := hsrc
    rcases snapshot_get_cases w d snap_name (hwf d (List.mem_cons_self d ds)) with
      ⟨hm, hget⟩ | ⟨s0, hm, hget⟩
    · -- destination region has no snapshot yet: issue a copy
      have hsrcget : snapshot_get w src snap_name = .ok (some s.snapshot_id) := by
        simp [snapshot_get, hs]
      have hsrcne : src ≠ d := by
        intro he
        rw [he, hm] at hs
        exact absurd hs (by simp)
      set sid := w.next_id with hsid
      set w2 : World := logEv
        { w.updRegion d (fun rs0 =>
            { rs0 with snaps := rs0.snaps ++ [⟨sid, ctx.tags ++ [⟨"Name", snap_name⟩], "pending"⟩] })
          with next_id := w.next_id + 1 } (.copyIssued d sid) with hw2
      have hregother : ∀ r, r ≠ d → w2.region r = w.region r := by
        intro r hr
        rw [hw2, region_logEv, region_set_next_id, region_updRegion]
        simp [hr]
      obtain ⟨ids, w', evs1, h1, hlog, hchars, hpre, hnew, hacc, hdom, hframe⟩ :=
        ih w2 (setA acc d sid) hndtail
          (⟨s, by rw [snapsMatching_of_region_eq w w2 src snap_name (hregother src hsrcne)]; exact hs⟩)
          (fun d0 hd0 => by
            have hd0d : d0 ≠ d := fun he => hdnotin (he ▸ hd0)
            rw [snapsMatching_of_region_eq w w2 d0 snap_name (hregother d0 hd0d)]
            exact hwf d0 (List.mem_cons_of_mem d hd0))
      refine ⟨ids, w', Ev.copyIssued d sid :: evs1, ?_, ?_, ?_, ?_, ?_, ?_, ?_, ?_⟩
      · rw [snapshot_copy_phase1, snapshot_copy_one, hget, hsrcget]
        exact h1
      · rw [hlog, hw2, log_logEv]
        simp [log_updRegion]
      · intro e he
        rcases List.mem_cons.mp he with hee | het
        · exact ⟨d, sid, List.mem_cons_self _ _, hee⟩
        · obtain ⟨d0, i0, hd0, he0⟩ := hchars e het
          exact ⟨d0, i0, List.mem_cons_of_mem _ hd0, he0⟩
      · intro d0 hd0 s1 hs1
        rcases List.mem_cons.mp hd0 with hdd | hdt
        · subst hdd; rw [hm] at hs1; exact absurd hs1 (by simp)
        · have hd0d : d0 ≠ d := fun he => hdnotin (he ▸ hdt)
          have hs1' : snapsMatching w2 d0 snap_name = [s1] := by
            rw [snapsMatching_of_region_eq w w2 d0 snap_name (hregother d0 hd0d)]
            exact hs1
          obtain ⟨hl, hno⟩ := hpre d0 hdt s1 hs1'
          refine ⟨hl, fun i hmem => ?_⟩
          rcases List.mem_cons.mp hmem with hee | het
          · exact absurd hee (by simp [hd0d])
          · exact hno i het
      · intro d0 hd0 hm0
        rcases List.mem_cons.mp hd0 with hdd | hdt
        · subst hdd
          refine ⟨sid, ?_, List.mem_cons_self _ _⟩
          rw [hacc d0 hdnotin, lookupA_setA]
          simp
        · have hd0d : d0 ≠ d := fun he => hdnotin (he ▸ hdt)
          have hm0' : snapsMatching w2 d0 snap_name = [] := by
            rw [snapsMatching_of_region_eq w w2 d0 snap_name (hregother d0 hd0d)]
            exact hm0
          obtain ⟨i, hl, hmem⟩ := hnew d0 hdt hm0'
          exact ⟨i, hl, List.mem_cons_of_mem _ hmem⟩
      · intro k hk
        have hkd : k ≠ d := fun he => hk (he ▸ List.mem_cons_self d ds)
        have hkds : k ∉ ds := fun hx => hk (List.mem_cons_of_mem d hx)
        rw [hacc k hkds, lookupA_setA]
        simp [hkd]
      · intro k
        rw [hdom k, lookupA_setA]
        by_cases hkd : k = d
        · subst hkd
          simp
        · simp [hkd]
      · intro r hr
        have hrd : r ≠ d := fun he => hr (he ▸ List.mem_cons_self d ds)
        rw [hframe r (fun hx => hr (List.mem_cons_of_mem d hx))]
        exact hregother r hrd
    · -- destination snapshot already exists: idempotent short-circuit
      obtain ⟨ids, w', evs1, h1, hlog, hchars, hpre, hnew, hacc, hdom, hframe⟩ :=
        ih w (setA acc d s0.snapshot_id) hndtail ⟨s, hs⟩
          (fun d0 hd0 => hwf d0 (List.mem_cons_of_mem d hd0))
      refine ⟨ids, w', evs1, ?_, hlog, ?_, ?_, ?_, ?_, ?_, ?_⟩
      · rw [snapshot_copy_phase1, snapshot_copy_one, hget]
        exact h1
      · intro e he
        obtain ⟨d0, i0, hd0, he0⟩ := hchars e he
        exact ⟨d0, i0, List.mem_cons_of_mem _ hd0, he0⟩
      · intro d0 hd0 s1 hs1
        rcases List.mem_cons.mp hd0 with hdd | hdt
        · subst hdd
          have hss : s1 = s0 := by
            rw [hm] at hs1
            simpa using hs1.symm
          subst hss
          refine ⟨?_, fun i hmem => ?_⟩
          · rw [hacc d0 hdnotin, lookupA_setA]
            simp
          · obtain ⟨d1, i1, hd1, he1⟩ := hchars _ hmem
            have hpair : d0 = d1 ∧ i = i1 := by simpa using he1
            exact hdnotin (hpair.1 ▸ hd1)
        · exact hpre d0 hdt s1 hs1
      · intro d0 hd0 hm0
        rcases List.mem_cons.mp hd0 with hdd | hdt
        · subst hdd; rw [hm] at hm0; exact absurd hm0 (by simp)
        · exact hnew d0 hdt hm0
      · intro k hk
        have hkd : k ≠ d := fun he => hk (he ▸ List.mem_cons_self d ds)
        have hkds : k ∉ ds := fun hx => hk (List.mem_cons_of_mem d hx)
        rw [hacc k hkds, lookupA_setA]
        simp [hkd]
      · intro k
        rw [hdom k, lookupA_setA]
        by_cases hkd : k = d
        · subst hkd
          simp
        · simp [hkd]
      · intro r hr
        exact hframe r (fun hx => hr (List.mem_cons_of_mem d hx))

/-- C5: `Snapshot.copy` short-circuits every destination region that already
holds a snapshot tagged with the identity (no copy is issued for it and its
existing id is recorded); for a region without one it issues a cross-region
copy and records the fresh id; all events appended to the log are the copy
issues followed by the waits, so no wait happens before the last copy is
issued; and the returned map holds exactly one snapshot id per destination
region. -/
theorem snapshot_copy_spec (ctx : Context) (snap_name src : String)
    (dests : List String) (w : World)
    (hnd : dests.Nodup)
    (hsrc : ∃ s : Snap, snapsMatching w src snap_name = [s])
    (hwf : ∀ d ∈ dests, (snapsMatching w d snap_name).length ≤ 1) :
    ∃ ids w' evsC evsW,
      snapshot_copy ctx snap_name src dests w = .ok (ids, w')
      ∧ w'.log = w.log ++ evsC ++ evsW
      ∧ (∀ e ∈ evsC, ∃ d i, d ∈ dests ∧ e = Ev.copyIssued d i)
      ∧ (∀ e ∈ evsW, ∃ d i, (d, i) ∈ ids ∧ e = Ev.waited d i)
      ∧ (∀ d ∈ dests, ∀ s0 : Snap, snapsMatching w d snap_name = [s0] →
          lookupA ids d = some s0.snapshot_id ∧ ∀ i, Ev.copyIssued d i ∉ evsC)
      ∧ (∀ d ∈ dests, snapsMatching w d snap_name = [] →
          ∃ i, lookupA ids d = some i ∧ Ev.copyIssued d i ∈ evsC)
      ∧ (∀ k, (lookupA ids k).isSome = true ↔ k ∈ dests) := by
  obtain ⟨ids, w1, evsC, h1, hlog1, hchars, hpre, hnew, _, hdom, _⟩ :=
    snapshot_copy_phase1_spec ctx snap_name src dests w [] hnd hsrc hwf
  obtain ⟨evsW, hlog2, hcharsW⟩ := snapshot_wait_all_spec ids w1
  refine ⟨ids, snapshot_wait_all ids w1, evsC, evsW, ?_, ?_, hchars, hcharsW,
    hpre, hnew, ?_⟩
  · rw [snapshot_copy, h1]
  · rw [hlog2, hlog1]
  · intro k
    rw [hdom k]
    simp [lookupA]

def worldW5 : World :=
  ⟨[("eu-central-1", ⟨[⟨7, [⟨"Name", "snap-identity"⟩], "completed"⟩], [], []⟩),
    ("us-east-1", ⟨[⟨8, [⟨"Name", "snap-identity"⟩], "completed"⟩], [], []⟩)], 20, []⟩

theorem snapshot_copy_spec_witness :
    ∃ ids w' evsC evsW,
      snapshot_copy ctxW "snap-identity" "eu-central-1" ["us-east-1", "ap-south-1"] worldW5 =
        .ok (ids, w')
      ∧ w'.log = worldW5.log ++ evsC ++ evsW
      ∧ (∀ e ∈ evsC, ∃ d i, d ∈ ["us-east-1", "ap-south-1"] ∧ e = Ev.copyIssued d i)
      ∧ (∀ e ∈ evsW, ∃ d i, (d, i) ∈ ids ∧ e = Ev.waited d i)
      ∧ (∀ d ∈ ["us-east-1", "ap-south-1"], ∀ s0 : Snap,
          snapsMatching worldW5 d "snap-identity" = [s0] →
          lookupA ids d = some s0.snapshot_id ∧ ∀ i, Ev.copyIssued d i ∉ evsC)
      ∧ (∀ d ∈ ["us-east-1", "ap-south-1"], snapsMatching worldW5 d "snap-identity" = [] →
          ∃ i, lookupA ids d = some i ∧ Ev.copyIssued d i ∈ evsC)
      ∧ (∀ k, (lookupA ids k).isSome = true ↔ k ∈ ["us-east-1", "ap-south-1"]) :=
  snapshot_copy_spec ctxW "snap-identity" "eu-central-1" ["us-east-1", "ap-south-1"] worldW5
    (by decide) ⟨⟨7, [⟨"Name", "snap-identity"⟩], "completed"⟩, by decide⟩ (by decide)

theorem log_setSnapStatus (w : World) (r : String) (sid : Nat) (st : String) :
    (setSnapStatus w r sid st).log = w.log := rfl

theorem log_addTagsToSnap (w : World) (r : String) (sid : Nat) (tags : List Tag) :
    (addTagsToSnap w r sid tags).log = w.log := rfl

theorem log_finishImportTask (w : World) (r : String) (tid : Nat) :
    (finishImportTask w r tid).log = w.log := by
  unfold finishImportTask
  cases (w.region r).tasks.find? (fun t => t.task_id = tid) with
  | none => rfl
  | some t => rfl

theorem find?_append_fresh {α : Type} (l : List α) (p : α → Bool) (a : α)
    (h : ∀ x ∈ l, p x = false) (ha : p a = true) :
    (l ++ [a]).find? p = some a := by
  induction l with
  | nil => simp [List.find?, ha]
  | cons b t ih =>
    have hb := h b (List.mem_cons_self b t)
    simp only [List.cons_append, List.find?, hb]
    exact ih (fun x hx => h x (List.mem_cons_of_mem b hx))

theorem map_id_on {α : Type} (l : List α) (f : α → α) (h : ∀ x ∈ l, f x = x) :
    l.map f = l := by
  induction l with
  | nil => rfl
  | cons b t ih =>
    rw [List.map_cons, h b (List.mem_cons_self b t), ih (fun x hx => h x (List.mem_cons_of_mem b hx))]

theorem snapshot_create_fresh (ctx : Context) (region snap_name : String) (w : World)
    (hmsnap : snapsMatching w region snap_name = [])
    (hmtask : importTasksMatching w region snap_name = [])
    (htf : ∀ t ∈ (w.region region).tasks, t.task_id ≠ w.next_id)
    (hsf : ∀ s ∈ (w.region region).snaps, s.snapshot_id ≠ w.next_id + 1) :
    ∃ w', snapshot_create ctx region snap_name w = .ok (w.next_id + 1, w')
      ∧ w'.region region =
          { snaps := (w.region region).snaps ++
              [⟨w.next_id + 1, ctx.tags ++ [⟨"Name", snap_name⟩], "completed"⟩],
            tasks := (w.region region).tasks ++
              [⟨w.next_id, w.next_id + 1, "completed", ctx.tags ++ [⟨"Name", snap_name⟩]⟩],
            images := (w.region region).images }
      ∧ w'.log = w.log ++ [.importStarted region w.next_id] := by
  have hget : snapshot_get w region snap_name = .ok none := by
    simp [snapshot_get, hmsnap]
  have htget : import_snapshot_task_get w region snap_name = .ok none := by
    simp [import_snapshot_task_get, hmtask]
  set tags : List Tag := ctx.tags ++ [⟨"Name", snap_name⟩] with htags
  set task0 : ImportTask := ⟨w.next_id, w.next_id + 1, "active", tags⟩ with htask0
  set wA : World := logEv
    { w.updRegion region (fun rs => { rs with tasks := rs.tasks ++ [task0] })
      with next_id := w.next_id + 2 } (.importStarted region w.next_id) with hwA
  have hwAreg : wA.region region =
      { w.region region with tasks := (w.region region).tasks ++ [task0] } := by
    rw [hwA, region_logEv, region_set_next_id, region_updRegion]
    simp
  have hfindA : (wA.region region).tasks.find? (fun t => t.task_id = w.next_id) = some task0 := by
    rw [hwAreg]
    exact find?_append_fresh _ _ _
      (fun x hx => by simp [htf x hx]) (by simp [htask0])
  set task1 : ImportTask := ⟨w.next_id, w.next_id + 1, "completed", tags⟩ with htask1
  have hw2 : finishImportTask wA region w.next_id =
      wA.updRegion region (fun rs =>
        { rs with
           tasks := rs.tasks.map
             (fun x => if x.task_id = w.next_id then { x with status := "completed" } else x),
           snaps :=
             if rs.snaps.any (fun s => s.snapshot_id = task0.snapshot_id) then rs.snaps
             else rs.snaps ++ [⟨task0.snapshot_id, [], "pending"⟩] }) := by
    rw [finishImportTask, hfindA]
  have hw2reg : (finishImportTask wA region w.next_id).region region =
      { snaps := (w.region region).snaps ++ [⟨w.next_id + 1, [], "pending"⟩],
        tasks := (w.region region).tasks ++ [task1],
        images := (w.region region).images } := by
    rw [hw2, region_updRegion, if_pos rfl, hwAreg]
    have hmap : ((w.region region).tasks ++ [task0]).map
        (fun x => if x.task_id = w.next_id then { x with status := "completed" } else x) =
        (w.region region).tasks ++ [task1] := by
      rw [List.map_append]
      congr 1
      · exact map_id_on _ _ (fun x hx => by simp [htf x hx])
      · simp [htask0, htask1]
    have hany : ((w.region region).snaps.any
        (fun s => s.snapshot_id = task0.snapshot_id)) = false := by
      rw [List.any_eq_false]
      intro s hs
      simp [htask0, hsf s hs]
    simp only [hmap]
    simp only [htask0] at hany ⊢
    simp [hany]
  have hfind2 : ((finishImportTask wA region w.next_id).region region).tasks.find?
      (fun t => t.task_id = w.next_id) = some task1 := by
    rw [hw2reg]
    exact find?_append_fresh _ _ _
      (fun x hx => by simp [htf x hx]) (by simp [htask1])
  have hrun : snapshot_create ctx region snap_name w =
      .ok (w.next_id + 1,
        setSnapStatus (addTagsToSnap (finishImportTask wA region w.next_id) region
          (w.next_id + 1) tags) region (w.next_id + 1) "completed") := by
    rw [snapshot_create, hget, htget]
    dsimp only
    rw [hfind2]
  refine ⟨_, hrun, ?_, ?_⟩
  · have hsnapmap1 : ((w.region region).snaps ++ ([⟨w.next_id + 1, [], "pending"⟩] : List Snap)).map
        (fun s => if s.snapshot_id = w.next_id + 1
          then { s with tags := s.tags ++ tags } else s) =
        (w.region region).snaps ++ [⟨w.next_id + 1, tags, "pending"⟩] := by
      rw [List.map_append]
      congr 1
      · exact map_id_on _ _ (fun x hx => by simp [hsf x hx])
      · simp
    have hsnapmap2 : ((w.region region).snaps ++ ([⟨w.next_id + 1, tags, "pending"⟩] : List Snap)).map
        (fun s => if s.snapshot_id = w.next_id + 1
          then { s with status := "completed" } else s) =
        (w.region region).snaps ++ [⟨w.next_id + 1, tags, "completed"⟩] := by
      rw [List.map_append]
      congr 1
      · exact map_id_on _ _ (fun x hx => by simp [hsf x hx])
      · simp
    rw [setSnapStatus, addTagsToSnap, region_updRegion, if_pos rfl, region_updRegion,
      if_pos rfl, hw2reg]
    simp only [hsnapmap1, hsnapmap2]
  · rw [log_setSnapStatus, log_addTagsToSnap, log_finishImportTask, hwA, log_logEv]
    simp [log_updRegion]

/-- C9 counterexample: for a concrete context the common resource tag set
contains none of the keys `source:filename`, `source:architecture`,
`source:sha256` claimed by the specification - the keys actually carry an
`awspub:` prefix. -/
theorem context_tags_counterexample :
    (((Context.tags ctxW).map Tag.key).contains "source:filename"
      || ((Context.tags ctxW).map Tag.key).contains "source:architecture"
      || ((Context.tags ctxW).map Tag.key).contains "source:sha256") = false := by
  decide

/-- C9 (amended): the common resource tag set produced by the context
contains the mandatory keys `awspub:source:filename`,
`awspub:source:architecture` and `awspub:source:sha256` (with the file
name, the architecture and the content hash as values), and the import
task and the snapshot created by `Snapshot.create` additionally receive a
`Name` tag whose value is the snapshot identity. -/
theorem context_tags_spec (ctx : Context) (region snap_name : String) (w : World)
    (hmsnap : snapsMatching w region snap_name = [])
    (hmtask : importTasksMatching w region snap_name = [])
    (htf : ∀ t ∈ (w.region region).tasks, t.task_id ≠ w.next_id)
    (hsf : ∀ s ∈ (w.region region).snaps, s.snapshot_id ≠ w.next_id + 1) :
    (⟨"awspub:source:filename", ctx.source_path_name⟩ : Tag) ∈ ctx.tags
    ∧ (⟨"awspub:source:architecture", ctx.source_architecture⟩ : Tag) ∈ ctx.tags
    ∧ (⟨"awspub:source:sha256", ctx.source_sha256⟩ : Tag) ∈ ctx.tags
    ∧ ∃ w', snapshot_create ctx region snap_name w = .ok (w.next_id + 1, w')
        ∧ (∃ t ∈ (w'.region region).tasks,
            t.task_id = w.next_id ∧ t.tags = ctx.tags ++ [⟨"Name", snap_name⟩])
        ∧ (∃ s ∈ (w'.region region).snaps,
            s.snapshot_id = w.next_id + 1 ∧ s.tags = ctx.tags ++ [⟨"Name", snap_name⟩]) := by
  refine ⟨by simp [Context.tags], by simp [Context.tags], by simp [Context.tags], ?_⟩
  obtain ⟨w', hrun, hreg, _⟩ :=
    snapshot_create_fresh ctx region snap_name w hmsnap hmtask htf hsf
  refine ⟨w', hrun, ?_, ?_⟩
  · rw [hreg]
    exact ⟨⟨w.next_id, w.next_id + 1, "completed", ctx.tags ++ [⟨"Name", snap_name⟩]⟩,
      by simp, rfl, rfl⟩
  · rw [hreg]
    exact ⟨⟨w.next_id + 1, ctx.tags ++ [⟨"Name", snap_name⟩], "completed"⟩,
      by simp, rfl, rfl⟩

def worldWempty : World := ⟨[], 0, []⟩

theorem context_tags_spec_witness :
    (⟨"awspub:source:filename", ctxW.source_path_name⟩ : Tag) ∈ ctxW.tags
    ∧ (⟨"awspub:source:architecture", ctxW.source_architecture⟩ : Tag) ∈ ctxW.tags
    ∧ (⟨"awspub:source:sha256", ctxW.source_sha256⟩ : Tag) ∈ ctxW.tags
    ∧ ∃ w', snapshot_create ctxW "eu-central-1" "snap-identity" worldWempty =
          .ok (worldWempty.next_id + 1, w')
        ∧ (∃ t ∈ (w'.region "eu-central-1").tasks,
            t.task_id = worldWempty.next_id ∧
              t.tags = ctxW.tags ++ [⟨"Name", "snap-identity"⟩])
        ∧ (∃ s ∈ (w'.region "eu-central-1").snaps,
            s.snapshot_id = worldWempty.next_id + 1 ∧
              s.tags = ctxW.tags ++ [⟨"Name", "snap-identity"⟩]) :=
  context_tags_spec ctxW "eu-central-1" "snap-identity" worldWempty
    (by decide) (by decide) (by decide) (by decide)

/-- C10: `Context.tags` has no backing store (the property builds a fresh
list on each access), so the `Name` entry appended for the created
snapshot/import task reaches only that resource's recorded tags: after
`Snapshot.create` runs, a later `Context.tags` access still yields exactly
the three mandatory source tags followed by the configured extra tags, and
carries no `Name` entry as long as the configured extra tags have none. -/
theorem context_tags_frame (ctx : Context) (region snap_name : String) (w : World)
    (hmsnap : snapsMatching w region snap_name = [])
    (hmtask : importTasksMatching w region snap_name = [])
    (htf : ∀ t ∈ (w.region region).tasks, t.task_id ≠ w.next_id)
    (hsf : ∀ s ∈ (w.region region).snaps, s.snapshot_id ≠ w.next_id + 1) :
    ∃ w', snapshot_create ctx region snap_name w = .ok (w.next_id + 1, w')
      ∧ (∃ s ∈ (w'.region region).snaps, (⟨"Name", snap_name⟩ : Tag) ∈ s.tags)
      ∧ ctx.tags = [⟨"awspub:source:filename", ctx.source_path_name⟩,
          ⟨"awspub:source:architecture", ctx.source_architecture⟩,
          ⟨"awspub:source:sha256", ctx.source_sha256⟩] ++ ctx.extra_tags
      ∧ ((∀ t ∈ ctx.extra_tags, t.key ≠ "Name") →
          ∀ t ∈ ctx.tags, t.key ≠ "Name") := by
  obtain ⟨w', hrun, hreg, _⟩ :=
    snapshot_create_fresh ctx region snap_name w hmsnap hmtask htf hsf
  refine ⟨w', hrun, ?_, rfl, ?_⟩
  · rw [hreg]
    refine ⟨⟨w.next_id + 1, ctx.tags ++ [⟨"Name", snap_name⟩], "completed"⟩, by simp, ?_⟩
    simp
  · intro hextra t ht
    simp only [Context.tags, List.mem_append, List.mem_cons] at ht
    rcases ht with (h1 | h2 | h3 | hf) | hx
    · rw [h1]; simp
    · rw [h2]; simp
    · rw [h3]; simp
    · cases hf
    · exact hextra t hx

theorem context_tags_frame_witness :
    ∃ w', snapshot_create ctxW2 "us-east-1" "snap-id-2" worldWempty =
        .ok (worldWempty.next_id + 1, w')
      ∧ (∃ s ∈ (w'.region "us-east-1").snaps, (⟨"Name", "snap-id-2"⟩ : Tag) ∈ s.tags)
      ∧ ctxW2.tags = [⟨"awspub:source:filename", ctxW2.source_path_name⟩,
          ⟨"awspub:source:architecture", ctxW2.source_architecture⟩,
          ⟨"awspub:source:sha256", ctxW2.source_sha256⟩] ++ ctxW2.extra_tags
      ∧ ((∀ t ∈ ctxW2.extra_tags, t.key ≠ "Name") →
          ∀ t ∈ ctxW2.tags, t.key ≠ "Name") :=
  context_tags_frame ctxW2 "us-east-1" "snap-id-2" worldWempty
    (by decide) (by decide) (by decide) (by decide)
